import Mathlib

/-
Formal model of PyPMM (insarlab/PyPMM), files `plot_utils.py` and `models.py`.

The development embeds, as executable Lean functions:
  * the plate-boundary parser `read_plate_outline` (plot_utils.py lines 44-94):
    the abbreviation table construction, the line loop with its header
    detection, key extraction, per-record commit, and the final
    single-plate selection;
  * the interior sampler `_sample_coords_within_polygon`
    (plot_utils.py lines 126-153), over exact rationals;
  * the velocity-vector corrector of `plot_plate_motion`
    (plot_utils.py lines 214-220), over exact reals, with division modelled
    as a partial operation so that the divisions by zero the code can reach
    (0/0, division by cos of a right angle) appear as an undefined result.

Python strings are modelled as Lean strings; the handful of Python string
operations the source uses (`str.split()` with no separator,
`str.split(sep)`, `str.startswith`, `str.endswith`, `str.upper`) are
re-implemented by structural recursion on the character list so that all
concrete evaluations reduce in the kernel.  Python dicts keyed by strings
are association lists with insertion-order assignment semantics.  The
float conversion performed by `np.array(...).astype(float)` is a parameter
`pf : String -> Option A` of the parser: theorems quantify over it, and
concrete instances use a token validator.
-/

namespace PyPMM

/-- Boolean list-prefix test, modelling Python str.startswith. -/
def isPrefixL : List Char → List Char → Bool
  | [], _ => true
  | _ :: _, [] => false
  | p :: ps, c :: cs => p == c && isPrefixL ps cs

/-- Auxiliary loop of pySplit; the accumulator holds the current token
reversed. -/
def pySplitAux : List Char → List Char → List (List Char)
  | [], acc => if acc.isEmpty then [] else [acc.reverse]
  | c :: cs, acc =>
      if c.isWhitespace then
        if acc.isEmpty then pySplitAux cs [] else acc.reverse :: pySplitAux cs []
      else pySplitAux cs (c :: acc)

/-- Python str.split() with no separator: split on runs of whitespace,
discarding empty pieces. -/
def pySplit (s : String) : List String :=
  (pySplitAux s.toList []).map String.mk

/-- Characters before the first occurrence of sep; applied to the text
after a header marker this equals the piece line.split(sep)[1] that the
source extracts (the next occurrence of sep, if any, ends the piece). -/
def takeUntilSep (sep : List Char) : List Char → List Char
  | [] => []
  | c :: cs => if isPrefixL sep (c :: cs) then [] else c :: takeUntilSep sep cs

/-- Python str.upper restricted to ASCII, which covers every abbreviation
in models.py. -/
def pyUpper (s : String) : String :=
  String.mk (s.toList.map Char.toUpper)

/-- Python dict lookup d[k] on an insertion-ordered association list,
returning none where Python raises KeyError. -/
def dictGet? {β : Type} : List (String × β) → String → Option β
  | [], _ => none
  | (k', v) :: d, k => if k' == k then some v else dictGet? d k

/-- Python dict assignment d[k] = v: replace in place if the key exists,
otherwise append. -/
def dictSet {β : Type} : List (String × β) → String → β → List (String × β)
  | [], k, v => [(k, v)]
  | (k', v') :: d, k, v =>
      if k' == k then (k, v) :: d else (k', v') :: dictSet d k v

/-- Python exceptions the modelled code can raise.  KeyError is a subclass
of LookupError in Python; ValueError and AttributeError are not. -/
inductive PyErr : Type
  | keyError (key : String)
  | valueError (msg : String)
  | attributeError (msg : String)
  deriving DecidableEq

/-- Whether the exception is an instance of Python LookupError. -/
def PyErr.isLookupErr : PyErr → Bool
  | .keyError _ => true
  | _ => false

/-- One catalog record of models.py.  The source Tag namedtuples carry
further numeric fields (pole coordinates, rotation rates, ...), but
read_plate_outline consumes only the Abbrev field, so only it is
modelled. -/
structure Tag : Type where
  Abbrev : String
  deriving DecidableEq

/-- Lines 44-46 of plot_utils.py: the abbreviation-to-name table, keyed by
the uppercased catalog abbreviation.  The catalog is the insertion-ordered
dict pmm_dict as a list of (plate name, record) pairs. -/
def abbrev2name (cat : List (String × Tag)) : List (String × String) :=
  cat.foldl (fun d e => dictSet d (pyUpper e.2.Abbrev) e.1) []

/-- Coordinate order tag derived from the boundary-file extension
(line 39): lalo means latitude first, lola longitude first. -/
inductive CoordOrder : Type
  | lalo
  | lola
  deriving DecidableEq

/-- State of the line loop of read_plate_outline (lines 52-79): the
pending abbreviation key, the pending vertex accumulator (none models
Python None), and the outlines dict built so far.  Vertex rows are lists
of coordinate values of the parameter type. -/
structure ParseState (α : Type) : Type where
  key : Option String
  vertices : Option (List (List α))
  outlines : List (String × List (List α))

/-- Elementwise conversion np.array(tokens).astype(float): the first token
the conversion function rejects is reported, as the ValueError of numpy
names the offending token.  An empty token list converts to an empty
array. -/
def astype {α : Type} (pf : String → Option α) : List String → Except String (List α)
  | [] => .ok []
  | t :: ts =>
      match pf t with
      | none => .error t
      | some v => (astype pf ts).map (fun vs => v :: vs)

/-- Construction np.array(vertices) on a list of 1-D rows: succeeds as a
2-D array exactly when all rows have equal length, and otherwise raises
the inhomogeneous-shape ValueError (numpy 1.24 and later). -/
def npArray2D {α : Type} : List (List α) → Option (List (List α))
  | [] => some []
  | r :: rs => if rs.all (fun r' => r'.length == r.length) then some (r :: rs) else none

/-- Header test of line 56: the line starts with a greater-than marker or
a hash marker, or splits into exactly one token. -/
def isHeaderLine (l : String) : Bool :=
  isPrefixL (String.toList "> ") l.toList
    || isPrefixL (String.toList "# ") l.toList
    || (pySplit l).length == 1

/-- Key extraction of lines 62-70: strip the recognized marker (taking the
piece line.split(marker)[1]) or keep the bare line, then drop a trailing
newline by taking key.split(newline)[0]. -/
def headerKey (l : String) : String :=
  let keyRaw :=
    if isPrefixL (String.toList "> ") l.toList then
      String.mk (takeUntilSep (String.toList "> ") (l.toList.drop 2))
    else if isPrefixL (String.toList "# ") l.toList then
      String.mk (takeUntilSep (String.toList "# ") (l.toList.drop 2))
    else l
  if keyRaw.toList.getLast? == some '\n' then
    String.mk (keyRaw.toList.takeWhile (fun c => c ≠ '\n'))
  else keyRaw

/-- Commit step of lines 58-60: under Python truthiness of key (a nonempty
string) and vertices (a nonempty list), resolve the abbreviation in the
table (KeyError when absent) and assign np.array(vertices) under the
resolved name. -/
def commitPending {α : Type} (a2n : List (String × String)) (st : ParseState α) :
    Except PyErr (ParseState α) :=
  match st.key, st.vertices with
  | some k, some vs =>
      if k.isEmpty || vs.isEmpty then .ok st
      else
        match dictGet? a2n k with
        | none => .error (.keyError k)
        | some pname =>
            match npArray2D vs with
            | none => .error (.valueError "setting an array element with a sequence: inhomogeneous shape")
            | some arr => .ok { st with outlines := dictSet st.outlines pname arr }
  | _, _ => .ok st

/-- Reversal np.flip(vert) applied when the coordinate order is
longitude-first (lines 77-78), the identity otherwise. -/
def flipOrder {α : Type} (order : CoordOrder) (v : List α) : List α :=
  match order with
  | .lola => v.reverse
  | .lalo => v

/-- One iteration of the line loop (lines 54-79).  A header line commits
the pending record and resets the key and accumulator; any other line is
converted by astype (ValueError on a rejected token), reversed when the
order is longitude-first, and appended to the accumulator, which is an
AttributeError on the Python None accumulator before the first header. -/
def processLine {α : Type} (pf : String → Option α) (a2n : List (String × String))
    (order : CoordOrder) (st : ParseState α) (line : String) :
    Except PyErr (ParseState α) :=
  if isHeaderLine line then
    match commitPending a2n st with
    | .error e => .error e
    | .ok st' => .ok { st' with key := some (headerKey line), vertices := some [] }
  else
    match astype pf (pySplit line) with
    | .error t => .error (.valueError ("could not convert string to float: " ++ t))
    | .ok vert =>
        let vert' := flipOrder order vert
        match st.vertices with
        | none => .error (.attributeError "NoneType object has no attribute append")
        | some vs => .ok { st with vertices := some (vs ++ [vert']) }

/-- Initial loop state of line 52: key, vertices = None, None with an
empty outlines dict. -/
def initState {α : Type} : ParseState α := ⟨none, none, []⟩

/-- Lines 49-80 of read_plate_outline: fold the line loop over the file
content and return the outlines dict.  There is no commit after the loop,
so a record still pending at end of input is not stored. -/
def readOutlines {α : Type} (pf : String → Option α) (cat : List (String × Tag))
    (order : CoordOrder) (lines : List String) :
    Except PyErr (List (String × List (List α))) :=
  match lines.foldlM (processLine pf (abbrev2name cat) order) initState with
  | .error e => .error e
  | .ok st => .ok st.outlines

/-- Lines 82-89 of read_plate_outline, for a truthy plate_name: when the
name is not among the table values the source evaluates
pmm_dict[plate_name].Abbrev (KeyError when the catalog lacks the name)
and then raises ValueError; otherwise it builds the shapely polygon from
outlines[plate_name], a KeyError when the plate was never committed.  The
polygon construction is delegated to shapely, so the selected vertex ring
is returned. -/
def selectPlate {α : Type} (cat : List (String × Tag))
    (out : List (String × List (List α))) (name : String) :
    Except PyErr (List (List α)) :=
  if name ∈ (abbrev2name cat).map Prod.snd then
    match dictGet? out name with
    | some ring => .ok ring
    | none => .error (.keyError name)
  else
    match dictGet? cat name with
    | none => .error (.keyError name)
    | some tag => .error (.valueError ("Can NOT found plate " ++ name ++ " (" ++ tag.Abbrev ++ ") in file!"))

/-- Swap of one boundary-file line for the order round trip: header lines
are kept, a two-token data line is rewritten with its tokens swapped. -/
def swapLine (l : String) : String :=
  if isHeaderLine l then l
  else
    match pySplit l with
    | [t1, t2] => t2 ++ " " ++ t1 ++ "\n"
    | _ => l

/-- Well-formedness of one line for the order round trip: a header line,
or a data line of exactly two convertible tokens whose swap is again a
two-token data line with the tokens exchanged. -/
def swapOKb {α : Type} (pf : String → Option α) (l : String) : Bool :=
  isHeaderLine l
    || (match pySplit l with
        | [t1, t2] =>
            (pf t1).isSome && (pf t2).isSome && !(isHeaderLine (swapLine l))
              && (match pySplit (swapLine l) with
                  | [t1', t2'] => t1' == t2 && t2' == t1
                  | _ => false)
        | _ => false)

/-- Whether an Except value is a success. -/
def exOk {ε β : Type} : Except ε β → Bool
  | .ok _ => true
  | .error _ => false

/-- Conservative model of the set of tokens Python float() accepts,
restricted to plain decimal literals (optional minus sign, digits, at most
one dot).  It is used only to instantiate the generic conversion
parameter of the parser at concrete inputs; all general theorems are
parametric in the conversion function. -/
def pyFloatTokenOk (t : String) : Bool :=
  let cs := match t.toList with
    | '-' :: r => r
    | r => r
  cs.any Char.isDigit
    && cs.all (fun c => c.isDigit || c == '.')
    && (cs.filter (fun c => c == '.')).length ≤ 1

/-- Concrete instantiation of the conversion parameter keeping each
accepted token as its own value, so that concrete parses evaluate in the
kernel. -/
def pfS : String → Option String :=
  fun t => if pyFloatTokenOk t then some t else none

/-- Singleton catalog used in concrete instances: the Arabia record of the
GSRM table in models.py (only the consumed Abbrev field). -/
def catAR : List (String × Tag) := [("Arabia", ⟨"AR"⟩)]

/-- Minimum of a nonempty numpy array, none on the empty array (where
np.min raises). -/
def npMin? : List ℚ → Option ℚ
  | [] => none
  | x :: xs => some (xs.foldl min x)

/-- Maximum of a nonempty numpy array, none on the empty array. -/
def npMax? : List ℚ → Option ℚ
  | [] => none
  | x :: xs => some (xs.foldl max x)

/-- Model of np.linspace(a, b, n): n evenly spaced samples with inclusive
endpoints, sample i at a + (b - a) * i / (n - 1). -/
def linspace (a b : ℚ) (n : ℕ) : List ℚ :=
  (List.range n).map (fun i => a + (b - a) * i / ((n : ℚ) - 1))

/-- Lines 126-153 of plot_utils.py, _sample_coords_within_polygon: build
the ny-by-nx candidate lattice over the coordinate extrema of the polygon
exterior coordinates (meshgrid of the two linspaces, flattened row-major,
so candidate k pairs latitude k mod ny with longitude k div ny), keep the
candidates the containment predicate accepts, and return the retained
latitudes and longitudes.  The shapely containment test is the parameter
contains; the exterior coordinate list (the ring closed by shapely) is
the parameter coords.  None models the np.min failure on an empty
coordinate list. -/
def sample_coords_within_polygon (contains : ℚ → ℚ → Bool) (coords : List (ℚ × ℚ))
    (ny nx : ℕ) : Option (List ℚ × List ℚ) :=
  match npMin? (coords.map Prod.fst), npMax? (coords.map Prod.fst),
      npMin? (coords.map Prod.snd), npMax? (coords.map Prod.snd) with
  | some la0, some la1, some lo0, some lo1 =>
      let latVals := linspace la0 la1 ny
      let lonVals := linspace lo0 lo1 nx
      let cands := lonVals.flatMap (fun lo => latVals.map (fun la => (la, lo)))
      let kept := cands.filter (fun p => contains p.1 p.2)
      some (kept.map Prod.fst, kept.map Prod.snd)
  | _, _, _, _ => none

/-- Exterior coordinates of the square test polygon with vertices
(0,0)-(0,10)-(10,10)-(10,0), closed the way shapely closes an exterior
ring. -/
def squareCoords : List (ℚ × ℚ) := [(0, 0), (0, 10), (10, 10), (10, 0), (0, 0)]

/-- Modelled from the spec: the shapely Polygon.contains predicate (not
part of this repository) for the square test polygon, with the standard
point-in-polygon semantics the spec delegates to the geometry library;
for this convex square the interior is the open box. -/
def squareContains (la lo : ℚ) : Bool :=
  0 < la && la < 10 && 0 < lo && lo < 10

/-- Model of np.deg2rad: multiplication by pi over 180. -/
noncomputable def deg2rad (d : ℝ) : ℝ := d * (Real.pi / 180)

open Classical in
/-- Partial division: none when the divisor is zero, where IEEE evaluation
of the unguarded source produces a non-finite or NaN value instead of a
real number. -/
noncomputable def pdiv (x y : ℝ) : Option ℝ :=
  if y = 0 then none else some (x / y)

/-- Lines 214-220 of plot_plate_motion, per sample index: the norm of the
raw vector, the division of the east component by the cosine of the
latitude, the renormalization factor, and the two final divisions.  The
arrays are elementwise, so the model takes one latitude and one raw
vector.  Every division the source performs is the partial pdiv; the
source has no special case for a zero vector or a polar latitude. -/
noncomputable def vecCorrect (lat ve vn : ℝ) : Option (ℝ × ℝ) :=
  let norm := Real.sqrt (ve ^ 2 + vn ^ 2)
  (pdiv ve (Real.cos (deg2rad lat))).bind (fun veAdj =>
    (pdiv (Real.sqrt (veAdj ^ 2 + vn ^ 2)) norm).bind (fun renorm =>
      (pdiv veAdj renorm).bind (fun veC =>
        (pdiv vn renorm).bind (fun vnC =>
          some (veC, vnC)))))

/-
Helper lemmas shared by the claim theorems.
-/

theorem exceptBind_ok {ε β γ : Type} (x : β) (f : β → Except ε γ) :
    (Except.ok x : Except ε β) >>= f = f x := rfl

theorem exceptBind_err {ε β γ : Type} (e : ε) (f : β → Except ε γ) :
    (Except.error e : Except ε β) >>= f = .error e := rfl

/-- The header branch of the line loop never consults the coordinate
order. -/
theorem processLine_header {α : Type} (pf : String → Option α) (a2n) (o1 o2 : CoordOrder)
    (st : ParseState α) (l : String) (hl : isHeaderLine l = true) :
    processLine pf a2n o1 st l = processLine pf a2n o2 st l := by
  simp [processLine, hl]

/-- A convertible data line appends exactly one (possibly reversed) row to
the accumulator and changes nothing else. -/
theorem processLine_data_ok {α : Type} (pf : String → Option α) (a2n) (order : CoordOrder)
    (st : ParseState α) (l : String) (vert : List α) (vs : List (List α))
    (hl : isHeaderLine l = false) (ha : astype pf (pySplit l) = .ok vert)
    (hv : st.vertices = some vs) :
    processLine pf a2n order st l =
      .ok ⟨st.key, some (vs ++ [flipOrder order vert]), st.outlines⟩ := by
  cases st
  simp_all [processLine]

/-- Folding the line loop over convertible data lines only grows the
accumulator: one row per line, key and outlines untouched. -/
theorem foldl_data {α : Type} (pf : String → Option α) (a2n) (order : CoordOrder) :
    ∀ (D : List String) (st : ParseState α) (vs : List (List α)),
      st.vertices = some vs →
      (∀ l ∈ D, isHeaderLine l = false ∧ exOk (astype pf (pySplit l)) = true) →
      ∃ rows, rows.length = D.length ∧
        D.foldlM (processLine pf a2n order) st = .ok ⟨st.key, some (vs ++ rows), st.outlines⟩
  | [], st, vs, hv, _ => by
      refine ⟨[], rfl, ?_⟩
      cases st
      simp_all [List.foldlM]
      rfl
  | l :: D, st, vs, hv, hD => by
      obtain ⟨hl, hok⟩ := hD l (by simp)
      obtain ⟨vert, ha⟩ : ∃ vert, astype pf (pySplit l) = .ok vert := by
        cases h : astype pf (pySplit l) with
        | ok v => exact ⟨v, rfl⟩
        | error e => rw [h] at hok; simp [exOk] at hok
      have step := processLine_data_ok pf a2n order st l vert vs hl ha hv
      obtain ⟨rows, hlen, hfold⟩ := foldl_data pf a2n order D
        ⟨st.key, some (vs ++ [flipOrder order vert]), st.outlines⟩
        (vs ++ [flipOrder order vert]) rfl
        (fun l' hl' => hD l' (by simp [hl']))
      refine ⟨flipOrder order vert :: rows, by simp [hlen], ?_⟩
      rw [List.foldlM_cons, step, exceptBind_ok, hfold]
      simp

/-- A successfully processed header line leaves an empty accumulator, and
its outlines are those of the commit step. -/
theorem processLine_header_ok {α : Type} (pf : String → Option α) (a2n) (order : CoordOrder)
    (st st2 : ParseState α) (l : String) (hl : isHeaderLine l = true)
    (hok : processLine pf a2n order st l = .ok st2) :
    st2.vertices = some [] ∧ st2.outlines = (match commitPending a2n st with
      | .ok st' => st'.outlines
      | .error _ => st2.outlines) := by
  simp only [processLine, hl, if_pos] at hok
  cases hc : commitPending a2n st with
  | error e => rw [hc] at hok; simp at hok
  | ok st' =>
    rw [hc] at hok
    simp at hok
    subst hok
    simp

/-- Processing one line under latitude-first order agrees with processing
its swapped form under longitude-first order. -/
theorem processLine_order_swap {α : Type} (pf : String → Option α) (a2n)
    (st : ParseState α) (l : String) (Hl : swapOKb pf l = true) :
    processLine pf a2n .lalo st l = processLine pf a2n .lola st (swapLine l) := by
  by_cases hl : isHeaderLine l = true
  · have hsw : swapLine l = l := by simp [swapLine, hl]
    rw [hsw]
    exact processLine_header pf a2n .lalo .lola st l hl
  · have hl' : isHeaderLine l = false := by simpa using hl
    simp only [swapOKb, hl', Bool.false_or] at Hl
    cases hsp : pySplit l with
    | nil => rw [hsp] at Hl; simp at Hl
    | cons t1 rest =>
      cases rest with
      | nil => rw [hsp] at Hl; simp at Hl
      | cons t2 rest2 =>
        cases rest2 with
        | cons t3 rest3 => rw [hsp] at Hl; simp at Hl
        | nil =>
          rw [hsp] at Hl
          simp only at Hl
          obtain ⟨⟨⟨h1, h2⟩, h3⟩, h4⟩ := by
            simpa [Bool.and_eq_true] using Hl
          obtain ⟨v1, hv1⟩ := Option.isSome_iff_exists.mp h1
          obtain ⟨v2, hv2⟩ := Option.isSome_iff_exists.mp h2
          have hswh : isHeaderLine (swapLine l) = false := by
            cases hsl : isHeaderLine (swapLine l) with
            | false => rfl
            | true => rw [hsl] at h3; simp at h3
          cases hsp2 : pySplit (swapLine l) with
          | nil => rw [hsp2] at h4; simp at h4
          | cons u1 urest =>
            cases urest with
            | nil => rw [hsp2] at h4; simp at h4
            | cons u2 urest2 =>
              cases urest2 with
              | cons u3 urest3 => rw [hsp2] at h4; simp at h4
              | nil =>
                rw [hsp2] at h4
                simp only [Bool.and_eq_true, beq_iff_eq] at h4
                obtain ⟨hu1, hu2⟩ := h4
                subst hu1; subst hu2
                have ha1 : astype pf (pySplit l) = .ok [v1, v2] := by
                  rw [hsp]; simp [astype, hv1, hv2, Except.map]
                have ha2 : astype pf (pySplit (swapLine l)) = .ok [v2, v1] := by
                  rw [hsp2]; simp [astype, hv1, hv2, Except.map]
                simp only [processLine, hl', hswh, Bool.false_eq_true, if_false, ha1, ha2]
                cases st.vertices with
                | none => rfl
                | some vs => simp [flipOrder]

/-- Fold form of the one-line swap agreement, from any starting state. -/
theorem foldl_order_swap {α : Type} (pf : String → Option α) (a2n) :
    ∀ (lines : List String) (st : ParseState α),
      (∀ l ∈ lines, swapOKb pf l = true) →
      lines.foldlM (processLine pf a2n .lalo) st
        = (lines.map swapLine).foldlM (processLine pf a2n .lola) st
  | [], st, _ => rfl
  | l :: ls, st, H => by
      rw [List.map_cons, List.foldlM_cons, List.foldlM_cons,
        ← processLine_order_swap pf a2n st l (H l (by simp))]
      cases hstep : processLine pf a2n .lalo st l with
      | error e => rw [exceptBind_err, exceptBind_err]
      | ok st' =>
        rw [exceptBind_ok, exceptBind_ok]
        exact foldl_order_swap pf a2n ls st' (fun l' h' => H l' (by simp [h']))

theorem dictGet?_isSome_iff {β : Type} :
    ∀ (d : List (String × β)) (k : String),
      (dictGet? d k).isSome = true ↔ k ∈ d.map Prod.fst
  | [], k => by simp [dictGet?]
  | (k', v) :: d, k => by
      rw [List.map_cons, List.mem_cons]
      by_cases h : k' = k
      · subst h
        simp [dictGet?]
      · simp only [dictGet?, beq_iff_eq, if_neg h, dictGet?_isSome_iff d k]
        constructor
        · exact Or.inr
        · rintro (h' | h')
          · exact absurd h'.symm h
          · exact h'

theorem dictGet?_mem_values {β : Type} :
    ∀ (d : List (String × β)) (k : String) (v : β),
      dictGet? d k = some v → v ∈ d.map Prod.snd
  | [], k, v => by intro h; simp [dictGet?] at h
  | (k', v') :: d, k, v => by
      intro h
      rw [List.map_cons, List.mem_cons]
      by_cases hk : k' = k
      · subst hk
        simp only [dictGet?, beq_self_eq_true, if_true, Option.some.injEq] at h
        exact Or.inl h.symm
      · simp only [dictGet?, beq_iff_eq, if_neg hk] at h
        exact Or.inr (dictGet?_mem_values d k v h)

theorem dictSet_fst_mem {β : Type} :
    ∀ (d : List (String × β)) (k : String) (v : β) (x : String),
      x ∈ (dictSet d k v).map Prod.fst ↔ x ∈ d.map Prod.fst ∨ x = k
  | [], k, v, x => by simp [dictSet]
  | (k', v') :: d, k, v, x => by
      by_cases h : k' = k
      · subst h
        simp only [dictSet, beq_self_eq_true, if_true, List.map_cons, List.mem_cons]
        tauto
      · simp only [dictSet, beq_iff_eq, if_neg h, List.map_cons, List.mem_cons,
          dictSet_fst_mem d k v x]
        tauto

theorem dictSet_snd_mem {β : Type} :
    ∀ (d : List (String × β)) (k : String) (v : β) (y : β),
      y ∈ (dictSet d k v).map Prod.snd → y ∈ d.map Prod.snd ∨ y = v
  | [], k, v, y => by
      intro h
      simp only [dictSet, List.map_cons, List.map_nil, List.mem_singleton] at h
      exact Or.inr h
  | (k', v') :: d, k, v, y => by
      intro h
      by_cases hk : k' = k
      · subst hk
        simp only [dictSet, beq_self_eq_true, if_true, List.map_cons, List.mem_cons] at h
        rw [List.map_cons, List.mem_cons]
        tauto
      · simp only [dictSet, beq_iff_eq, if_neg hk, List.map_cons, List.mem_cons] at h
        rw [List.map_cons, List.mem_cons]
        rcases h with h | h
        · tauto
        · rcases dictSet_snd_mem d k v y h with h' | h'
          · tauto
          · tauto

theorem dictSet_of_not_mem {β : Type} :
    ∀ (d : List (String × β)) (k : String) (v : β),
      k ∉ d.map Prod.fst → dictSet d k v = d ++ [(k, v)]
  | [], k, v, _ => rfl
  | (k', v') :: d, k, v, h => by
      rw [List.map_cons, List.mem_cons] at h
      push_neg at h
      have h1 : ¬ k' = k := fun e => h.1 e.symm
      simp only [dictSet, beq_iff_eq, if_neg h1,
        dictSet_of_not_mem d k v h.2, List.cons_append]

/-- Building the abbreviation table from a catalog whose uppercased
abbreviations are distinct is a plain map: each insertion appends. -/
theorem abbrev2name_fold (cat : List (String × Tag)) :
    ∀ d : List (String × String),
      (d.map Prod.fst ++ cat.map (fun e => pyUpper e.2.Abbrev)).Nodup →
      cat.foldl (fun d' e => dictSet d' (pyUpper e.2.Abbrev) e.1) d
        = d ++ cat.map (fun e => (pyUpper e.2.Abbrev, e.1)) := by
  induction cat with
  | nil => intro d _; simp
  | cons e cat ih =>
      intro d hnd
      have hnotin : pyUpper e.2.Abbrev ∉ d.map Prod.fst := by
        rw [List.nodup_append] at hnd
        intro hmem
        exact hnd.2.2 hmem (by simp)
      rw [List.foldl_cons, dictSet_of_not_mem d _ e.1 hnotin]
      have hnd' : ((d ++ [(pyUpper e.2.Abbrev, e.1)]).map Prod.fst
          ++ cat.map (fun e => pyUpper e.2.Abbrev)).Nodup := by
        simpa [List.append_assoc] using hnd
      rw [ih (d ++ [(pyUpper e.2.Abbrev, e.1)]) hnd']
      simp

theorem abbrev2name_eq_of_nodup (cat : List (String × Tag))
    (hnd : (cat.map (fun e => pyUpper e.2.Abbrev)).Nodup) :
    abbrev2name cat = cat.map (fun e => (pyUpper e.2.Abbrev, e.1)) := by
  have h := abbrev2name_fold cat [] (by simpa using hnd)
  simpa [abbrev2name] using h

/-- The keys of the abbreviation table are exactly the uppercased catalog
abbreviations (no distinctness needed for membership). -/
theorem abbrev2name_keys (cat : List (String × Tag)) (t : String) :
    t ∈ (abbrev2name cat).map Prod.fst ↔ t ∈ cat.map (fun e => pyUpper e.2.Abbrev) := by
  have gen : ∀ (c : List (String × Tag)) (d : List (String × String)),
      t ∈ (c.foldl (fun d' e => dictSet d' (pyUpper e.2.Abbrev) e.1) d).map Prod.fst
        ↔ t ∈ d.map Prod.fst ∨ t ∈ c.map (fun e => pyUpper e.2.Abbrev) := by
    intro c
    induction c with
    | nil => intro d; simp
    | cons e c ih =>
        intro d
        rw [List.foldl_cons, ih (dictSet d (pyUpper e.2.Abbrev) e.1), dictSet_fst_mem,
          List.map_cons, List.mem_cons]
        tauto
  have h := gen cat []
  simpa [abbrev2name] using h

/-- The commit step only ever stores plate names that are values of the
abbreviation table. -/
theorem commitPending_outlines_sub {α : Type} (a2n : List (String × String))
    (st st' : ParseState α)
    (hst : ∀ p ∈ st.outlines.map Prod.fst, p ∈ a2n.map Prod.snd)
    (hok : commitPending a2n st = .ok st') :
    ∀ p ∈ st'.outlines.map Prod.fst, p ∈ a2n.map Prod.snd := by
  unfold commitPending at hok
  split at hok
  · split at hok
    · injection hok with h
      rw [← h]
      exact hst
    · split at hok
      · exact absurd hok (by simp)
      · split at hok
        · exact absurd hok (by simp)
        · injection hok with h
          rw [← h]
          intro p hp
          simp only at hp
          rcases (dictSet_fst_mem st.outlines _ _ p).mp hp with h' | h'
          · exact hst p h'
          · subst h'
            exact dictGet?_mem_values a2n _ p (by assumption)
  · injection hok with h
    rw [← h]
    exact hst

theorem processLine_outlines_sub {α : Type} (pf : String → Option α) (a2n)
    (order : CoordOrder) (st st' : ParseState α) (l : String)
    (hst : ∀ p ∈ st.outlines.map Prod.fst, p ∈ a2n.map Prod.snd)
    (hok : processLine pf a2n order st l = .ok st') :
    ∀ p ∈ st'.outlines.map Prod.fst, p ∈ a2n.map Prod.snd := by
  unfold processLine at hok
  split at hok
  · split at hok
    · exact absurd hok (by simp)
    · rename_i st1 hc
      injection hok with h
      rw [← h]
      simp only
      exact commitPending_outlines_sub a2n st st1 hst hc
  · split at hok
    · exact absurd hok (by simp)
    · split at hok
      · exact absurd hok (by simp)
      · injection hok with h
        rw [← h]
        exact hst

theorem foldl_outlines_sub {α : Type} (pf : String → Option α) (a2n) (order : CoordOrder) :
    ∀ (lines : List String) (st st' : ParseState α),
      (∀ p ∈ st.outlines.map Prod.fst, p ∈ a2n.map Prod.snd) →
      lines.foldlM (processLine pf a2n order) st = .ok st' →
      ∀ p ∈ st'.outlines.map Prod.fst, p ∈ a2n.map Prod.snd
  | [], st, st', hst, hok => by
      simp only [List.foldlM_nil] at hok
      injection hok with h
      rwa [← h]
  | l :: ls, st, st', hst, hok => by
      rw [List.foldlM_cons] at hok
      cases hstep : processLine pf a2n order st l with
      | error e => rw [hstep, exceptBind_err] at hok; exact absurd hok (by simp)
      | ok st1 =>
        rw [hstep, exceptBind_ok] at hok
        exact foldl_outlines_sub pf a2n order ls st1 st'
          (processLine_outlines_sub pf a2n order st st1 l hst hstep) hok

/-- Every key of a parsed outlines dict is a value of the abbreviation
table. -/
theorem readOutlines_keys_sub {α : Type} (pf : String → Option α) (cat : List (String × Tag))
    (order : CoordOrder) (lines : List String) (out : List (String × List (List α)))
    (hok : readOutlines pf cat order lines = .ok out) :
    ∀ p ∈ out.map Prod.fst, p ∈ (abbrev2name cat).map Prod.snd := by
  unfold readOutlines at hok
  split at hok
  · exact absurd hok (by simp)
  · rename_i st hf
    injection hok with h
    rw [← h]
    exact foldl_outlines_sub pf (abbrev2name cat) order lines initState st
      (by simp [initState]) hf

/-- For a catalog with distinct uppercased abbreviations, the table values
are exactly the catalog plate names. -/
theorem mem_values_iff (cat : List (String × Tag))
    (hnd : (cat.map (fun e => pyUpper e.2.Abbrev)).Nodup) (name : String) :
    name ∈ (abbrev2name cat).map Prod.snd ↔ name ∈ cat.map Prod.fst := by
  rw [abbrev2name_eq_of_nodup cat hnd, List.map_map]
  rfl

/-- Evaluation of the two linspaces used by the square-lattice instance of
the sampler. -/
theorem linspace_0_10_11 : linspace 0 10 11 = [0, 1, 2, 3, 4, 5, 6, 7, 8, 9, 10] := by
  simp [linspace, List.range_succ]
  norm_num

/-
Claim theorems.
-/

/-- Claim C1, counterexample: a boundary file whose final record is a
header line followed by a coordinate line and then end of input does NOT
commit that pending record: the parse returns an empty outlines dict,
although the very same record is committed as soon as a later header
follows it.  The loop of read_plate_outline has no commit after its last
iteration. -/
theorem readOutlines_drops_final_record_cex :
    readOutlines pfS catAR .lalo ["> AR\n", "10 40\n"] = .ok [] ∧
    readOutlines pfS catAR .lalo ["> AR\n", "10 40\n", "> AR\n"]
      = .ok [("Arabia", [["10", "40"]])] :=
  ⟨rfl, rfl⟩

/-- Claim C1, amended: a pending record is committed only when a later
header-like line is reached; the data lines of a final record change
nothing in the result, so a file ending in a pending record parses exactly
like the same file truncated after that record's header. -/
theorem readOutlines_trailing {α : Type} (pf : String → Option α) (cat : List (String × Tag))
    (order : CoordOrder) (pre : List String) (h : String) (D : List String)
    (hh : isHeaderLine h = true)
    (hD : ∀ l ∈ D, isHeaderLine l = false ∧ exOk (astype pf (pySplit l)) = true) :
    readOutlines pf cat order (pre ++ h :: D) = readOutlines pf cat order (pre ++ [h]) := by
  unfold readOutlines
  rw [List.foldlM_append, List.foldlM_append]
  cases hpre : List.foldlM (processLine pf (abbrev2name cat) order) initState pre with
  | error e => rw [exceptBind_err, exceptBind_err]
  | ok st1 =>
    rw [exceptBind_ok, exceptBind_ok, List.foldlM_cons, List.foldlM_cons]
    cases hh1 : processLine pf (abbrev2name cat) order st1 h with
    | error e => rw [exceptBind_err, exceptBind_err]
    | ok st2 =>
      rw [exceptBind_ok, exceptBind_ok]
      have hv : st2.vertices = some [] :=
        (processLine_header_ok pf (abbrev2name cat) order st1 st2 h hh hh1).1
      obtain ⟨rows, hlen, hfold⟩ := foldl_data pf (abbrev2name cat) order D st2 [] hv hD
      rw [hfold]
      rfl

/-- Witness for the amended claim C1 at a concrete file. -/
theorem readOutlines_trailing_witness :
    readOutlines pfS catAR .lalo (["> AR\n", "10 40\n"] ++ "> AR\n" :: ["11 41\n"])
      = readOutlines pfS catAR .lalo (["> AR\n", "10 40\n"] ++ ["> AR\n"]) :=
  readOutlines_trailing pfS catAR .lalo ["> AR\n", "10 40\n"] "> AR\n" ["11 41\n"]
    rfl (by decide)

/-- Claim C2: parsing a boundary file under latitude-first order and
parsing the same content with every coordinate pair swapped under
longitude-first order yield identical results, for every file whose lines
are headers or two-token convertible data lines; in both runs the stored
row for a data line is its latitude-first pair, since the lola run
reverses the swapped pair back. -/
theorem readOutlines_order_swap {α : Type} (pf : String → Option α)
    (cat : List (String × Tag)) (lines : List String)
    (H : ∀ l ∈ lines, swapOKb pf l = true) :
    readOutlines pf cat .lalo lines = readOutlines pf cat .lola (lines.map swapLine) := by
  unfold readOutlines
  rw [foldl_order_swap pf (abbrev2name cat) lines initState H]

/-- Witness for claim C2 at a concrete file. -/
theorem readOutlines_order_swap_witness :
    readOutlines pfS catAR .lalo ["> AR\n", "10 40\n"]
      = readOutlines pfS catAR .lola (["> AR\n", "10 40\n"].map swapLine) :=
  readOutlines_order_swap pfS catAR ["> AR\n", "10 40\n"] (by decide)

/-- Claim C3: away from the poles and away from the zero vector, all four
divisions of the corrector are defined and the corrected vector has
exactly the raw vector's Euclidean norm (exact real arithmetic). -/
theorem vecCorrect_norm (lat ve vn : ℝ) (h1 : -90 < lat) (h2 : lat < 90)
    (h0 : ¬(ve = 0 ∧ vn = 0)) :
    ∃ w : ℝ × ℝ, vecCorrect lat ve vn = some w ∧
      Real.sqrt (w.1 ^ 2 + w.2 ^ 2) = Real.sqrt (ve ^ 2 + vn ^ 2) := by
  have hrad1 : -(Real.pi / 2) < deg2rad lat := by
    unfold deg2rad; nlinarith [Real.pi_pos]
  have hrad2 : deg2rad lat < Real.pi / 2 := by
    unfold deg2rad; nlinarith [Real.pi_pos]
  have hc : 0 < Real.cos (deg2rad lat) := Real.cos_pos_of_mem_Ioo ⟨hrad1, hrad2⟩
  have hsum : 0 < ve ^ 2 + vn ^ 2 := by
    rcases not_and_or.mp h0 with h | h
    · nlinarith [sq_nonneg vn, pow_two_pos_of_ne_zero h]
    · nlinarith [sq_nonneg ve, pow_two_pos_of_ne_zero h]
  have hnrm : 0 < Real.sqrt (ve ^ 2 + vn ^ 2) := Real.sqrt_pos.mpr hsum
  have hA : 0 < (ve / Real.cos (deg2rad lat)) ^ 2 + vn ^ 2 := by
    rcases not_and_or.mp h0 with h | h
    · have hne : ve / Real.cos (deg2rad lat) ≠ 0 := div_ne_zero h (ne_of_gt hc)
      nlinarith [sq_nonneg vn, pow_two_pos_of_ne_zero hne]
    · nlinarith [sq_nonneg (ve / Real.cos (deg2rad lat)), pow_two_pos_of_ne_zero h]
  have hsA : 0 < Real.sqrt ((ve / Real.cos (deg2rad lat)) ^ 2 + vn ^ 2) :=
    Real.sqrt_pos.mpr hA
  have hre : 0 < Real.sqrt ((ve / Real.cos (deg2rad lat)) ^ 2 + vn ^ 2)
      / Real.sqrt (ve ^ 2 + vn ^ 2) := div_pos hsA hnrm
  have e1 : vecCorrect lat ve vn =
      some (ve / Real.cos (deg2rad lat)
              / (Real.sqrt ((ve / Real.cos (deg2rad lat)) ^ 2 + vn ^ 2)
                  / Real.sqrt (ve ^ 2 + vn ^ 2)),
            vn / (Real.sqrt ((ve / Real.cos (deg2rad lat)) ^ 2 + vn ^ 2)
                  / Real.sqrt (ve ^ 2 + vn ^ 2))) := by
    unfold vecCorrect pdiv
    simp [hc.ne', hnrm.ne', hre.ne', hsA.ne']
  refine ⟨_, e1, ?_⟩
  have hq : (ve / Real.cos (deg2rad lat)
        / (Real.sqrt ((ve / Real.cos (deg2rad lat)) ^ 2 + vn ^ 2)
            / Real.sqrt (ve ^ 2 + vn ^ 2))) ^ 2
      + (vn / (Real.sqrt ((ve / Real.cos (deg2rad lat)) ^ 2 + vn ^ 2)
            / Real.sqrt (ve ^ 2 + vn ^ 2))) ^ 2
      = ((ve / Real.cos (deg2rad lat)) ^ 2 + vn ^ 2)
          / (Real.sqrt ((ve / Real.cos (deg2rad lat)) ^ 2 + vn ^ 2)
              / Real.sqrt (ve ^ 2 + vn ^ 2)) ^ 2 := by
    ring
  rw [hq, Real.sqrt_div hA.le, Real.sqrt_sq hre.le]
  rw [div_div_eq_mul_div]
  rw [mul_comm (Real.sqrt ((ve / Real.cos (deg2rad lat)) ^ 2 + vn ^ 2))
      (Real.sqrt (ve ^ 2 + vn ^ 2))]
  rw [mul_div_assoc, div_self hsA.ne', mul_one]

/-- Witness for claim C3 at latitude 0 and raw vector (3, 4). -/
theorem vecCorrect_norm_witness :
    ∃ w : ℝ × ℝ, vecCorrect 0 3 4 = some w ∧
      Real.sqrt (w.1 ^ 2 + w.2 ^ 2) = Real.sqrt ((3 : ℝ) ^ 2 + 4 ^ 2) :=
  vecCorrect_norm 0 3 4 (by norm_num) (by norm_num) (by norm_num)

/-- Claim C4, counterexample: a data line with three numeric tokens is
silently accepted as a three-coordinate vertex row and the parse succeeds;
no error identifies the line. -/
theorem readOutlines_three_token_cex :
    readOutlines pfS catAR .lalo ["> AR\n", "1.0 2.0 3.0\n", "> AR\n"]
      = .ok [("Arabia", [["1.0", "2.0", "3.0"]])] :=
  rfl

/-- Claim C4, amended: a non-header line whose whitespace-split tokens all
convert is appended to the accumulator as one row of that token count,
whatever the count (zero, two, three, ...); the parser raises no error
naming the line content or number.  A mismatch of row lengths within one
record surfaces only later, at commit, as the inhomogeneous-shape
ValueError of np.array. -/
theorem processLine_accepts_any_token_count {α : Type} (pf : String → Option α) (a2n)
    (order : CoordOrder) (st : ParseState α) (l : String) (vert : List α)
    (vs : List (List α))
    (hl : isHeaderLine l = false) (ha : astype pf (pySplit l) = .ok vert)
    (hv : st.vertices = some vs) :
    processLine pf a2n order st l =
      .ok ⟨st.key, some (vs ++ [flipOrder order vert]), st.outlines⟩ :=
  processLine_data_ok pf a2n order st l vert vs hl ha hv

/-- Witness for the amended claim C4 at the three-token line. -/
theorem processLine_accepts_any_token_count_witness :
    processLine pfS (abbrev2name catAR) .lalo ⟨some "AR", some [], []⟩ "1.0 2.0 3.0\n"
      = .ok ⟨some "AR", some ([] ++ [flipOrder .lalo ["1.0", "2.0", "3.0"]]), []⟩ :=
  processLine_accepts_any_token_count pfS (abbrev2name catAR) .lalo
    ⟨some "AR", some [], []⟩ "1.0 2.0 3.0\n" ["1.0", "2.0", "3.0"] [] rfl rfl rfl

/-- Claim C5, counterexample: the tolerances the claim asserts fail on the
code.  A numeric noise line before the first header raises AttributeError
(the None accumulator); a blank line inside a record appends an empty row
and the record's commit then fails with the inhomogeneous-shape
ValueError; trailing whitespace on a header line stays inside the
extracted key and the commit fails with a KeyError on the padded
abbreviation.  The clean file parses fine, so the noisy results also
differ from the clean one. -/
theorem readOutlines_noise_not_tolerated_cex :
    readOutlines pfS catAR .lalo ["5 6\n", "> AR\n", "10 40\n", "> AR\n"]
      = .error (.attributeError "NoneType object has no attribute append") ∧
    readOutlines pfS catAR .lalo ["> AR\n", "10 40\n", "> AR\n"]
      = .ok [("Arabia", [["10", "40"]])] ∧
    readOutlines pfS catAR .lalo ["> AR\n", "10 40\n", "\n", "11 41\n", "> AR\n"]
      = .error (.valueError "setting an array element with a sequence: inhomogeneous shape") ∧
    readOutlines pfS catAR .lalo ["> AR \n", "10 40\n", "> AR\n"]
      = .error (.keyError "AR ") :=
  ⟨rfl, rfl, rfl, rfl⟩

/-- Claim C5, amended: the only whitespace tolerance the parser has is on
data lines, which are processed purely through their whitespace-split
token list, so leading, trailing or repeated whitespace there cannot
change the parse.  Blank lines are data lines with an empty token list and
noise lines before the first header hit the None accumulator, so neither
is skipped. -/
theorem processLine_data_whitespace_invariant {α : Type} (pf : String → Option α) (a2n)
    (order : CoordOrder) (st : ParseState α) (l l' : String)
    (hl : isHeaderLine l = false) (hl' : isHeaderLine l' = false)
    (htok : pySplit l = pySplit l') :
    processLine pf a2n order st l = processLine pf a2n order st l' := by
  simp [processLine, hl, hl', htok]

/-- Witness for the amended claim C5: a data line and its
whitespace-padded variant process identically. -/
theorem processLine_data_whitespace_invariant_witness :
    processLine pfS (abbrev2name catAR) .lalo ⟨some "AR", some [], []⟩ "10 40\n"
      = processLine pfS (abbrev2name catAR) .lalo ⟨some "AR", some [], []⟩ "  10   40  \n" :=
  processLine_data_whitespace_invariant pfS (abbrev2name catAR) .lalo
    ⟨some "AR", some [], []⟩ "10 40\n" "  10   40  \n" rfl rfl rfl

/-- Claim C6, counterexample: a file whose only record names an unknown
abbreviation and then ends raises nothing at all (the record is dropped at
end of input), and when the same record is followed by a header the error
is a bare KeyError carrying the abbreviation only, with no file path in
its payload. -/
theorem readOutlines_unknown_abbrev_cex :
    readOutlines pfS catAR .lalo ["> XX\n", "10 40\n"] = .ok [] ∧
    readOutlines pfS catAR .lalo ["> XX\n", "10 40\n", "> AR\n"]
      = .error (.keyError "XX") :=
  ⟨rfl, rfl⟩

/-- Claim C6, amended: a record headed by an abbreviation absent from the
table, holding at least one convertible vertex line and followed by a
later header line, makes the parse fail with a KeyError (a Python
LookupError) whose payload is exactly the missing abbreviation; the source
file path is not part of the error, and without the later header the
record is silently dropped. -/
theorem readOutlines_unknown_abbrev {α : Type} (pf : String → Option α)
    (cat : List (String × Tag)) (order : CoordOrder) (hdr : String) (D : List String)
    (h2 : String) (k : String)
    (hhdr : isHeaderLine hdr = true) (hkey : headerKey hdr = k) (hk : k ≠ "")
    (hmiss : dictGet? (abbrev2name cat) k = none)
    (hne : D ≠ [])
    (hD : ∀ l ∈ D, isHeaderLine l = false ∧ exOk (astype pf (pySplit l)) = true)
    (hh2 : isHeaderLine h2 = true) :
    readOutlines pf cat order (hdr :: (D ++ [h2])) = .error (.keyError k) := by
  unfold readOutlines
  rw [List.foldlM_cons]
  have h1 : processLine pf (abbrev2name cat) order initState hdr
      = .ok ⟨some k, some [], []⟩ := by
    simp [processLine, hhdr, commitPending, initState, hkey]
  rw [h1, exceptBind_ok, List.foldlM_append]
  obtain ⟨rows, hlen, hfold⟩ :=
    foldl_data pf (abbrev2name cat) order D ⟨some k, some [], []⟩ [] rfl hD
  rw [hfold, exceptBind_ok, List.foldlM_cons]
  have hkemp : k.isEmpty = false := by
    cases he : k.isEmpty with
    | false => rfl
    | true => exact absurd ((String.isEmpty_iff k).mp he) hk
  have hrows : rows.isEmpty = false := by
    cases rows with
    | nil =>
        cases D with
        | nil => exact absurd rfl hne
        | cons d ds => simp at hlen
    | cons r rs => rfl
  have h2p : processLine pf (abbrev2name cat) order
      ⟨some k, some ([] ++ rows), []⟩ h2 = .error (.keyError k) := by
    simp [processLine, hh2, commitPending, hkemp, hrows, hmiss]
  rw [h2p, exceptBind_err]

/-- Witness for the amended claim C6 at a concrete file. -/
theorem readOutlines_unknown_abbrev_witness :
    readOutlines pfS catAR .lalo ("> XX\n" :: (["10 40\n"] ++ ["> AR\n"]))
      = .error (.keyError "XX") :=
  readOutlines_unknown_abbrev pfS catAR .lalo "> XX\n" ["10 40\n"] "> AR\n" "XX"
    rfl rfl (by decide) rfl (by decide) (by decide) rfl

/-- Claim C7: for a catalog with distinct uppercased abbreviations (true
of every table in models.py) and a successfully parsed outlines dict,
selecting a plate returns exactly the stored vertex ring when the name is
a key of the parsed result, and otherwise fails with a KeyError, which is
a Python LookupError: membership in the parsed result decides the error,
because a name missing from the catalog is also missing from the parse and
its lookup raises KeyError before the unreachable ValueError. -/
theorem selectPlate_spec {α : Type} (pf : String → Option α) (cat : List (String × Tag))
    (order : CoordOrder) (lines : List String) (out : List (String × List (List α)))
    (name : String)
    (hnd : (cat.map (fun e => pyUpper e.2.Abbrev)).Nodup)
    (hparse : readOutlines pf cat order lines = .ok out) :
    (∀ ring, dictGet? out name = some ring → selectPlate cat out name = .ok ring) ∧
    (dictGet? out name = none → selectPlate cat out name = .error (.keyError name)
      ∧ (PyErr.keyError name).isLookupErr = true) := by
  constructor
  · intro ring hring
    have hmem : name ∈ (abbrev2name cat).map Prod.snd := by
      have hkey : name ∈ out.map Prod.fst :=
        (dictGet?_isSome_iff out name).mp (by rw [hring]; rfl)
      exact readOutlines_keys_sub pf cat order lines out hparse name hkey
    unfold selectPlate
    rw [if_pos hmem, hring]
  · intro hnone
    by_cases hmem : name ∈ (abbrev2name cat).map Prod.snd
    · unfold selectPlate
      rw [if_pos hmem, hnone]
      exact ⟨rfl, rfl⟩
    · have hcat : dictGet? cat name = none := by
        cases hg : dictGet? cat name with
        | none => rfl
        | some tag =>
            exfalso
            apply hmem
            rw [mem_values_iff cat hnd name]
            exact (dictGet?_isSome_iff cat name).mp (by rw [hg]; rfl)
      unfold selectPlate
      rw [if_neg hmem, hcat]
      exact ⟨rfl, rfl⟩

/-- Witness for claim C7 at a concrete catalog and parse. -/
theorem selectPlate_spec_witness :
    (∀ ring, dictGet? [("Arabia", [["10", "40"]])] "Arabia" = some ring →
        selectPlate catAR [("Arabia", [["10", "40"]])] "Arabia" = .ok ring) ∧
    (dictGet? [("Arabia", [["10", "40"]])] "Arabia" = none →
        selectPlate catAR [("Arabia", [["10", "40"]])] "Arabia"
          = .error (.keyError "Arabia")
        ∧ (PyErr.keyError "Arabia").isLookupErr = true) :=
  selectPlate_spec pfS catAR .lalo ["> AR\n", "10 40\n", "> AR\n"]
    [("Arabia", [["10", "40"]])] "Arabia" (by decide) rfl

/-- Claim C8: for the square polygon (0,0)-(0,10)-(10,10)-(10,0) at
ny = nx = 11, the candidate lattice axis is exactly the eleven integers 0
through 10 (inclusive endpoints of the bounds), the sampler returns
latitude and longitude sequences of equal length containing only points
the containment predicate classifies as interior, the point (5,5) is among
the samples and (20,20) is not, and an always-false predicate yields the
empty result rather than an error. -/
theorem sample_square_spec :
    linspace 0 10 11 = [0, 1, 2, 3, 4, 5, 6, 7, 8, 9, 10] ∧
    ∃ lats lons,
      sample_coords_within_polygon squareContains squareCoords 11 11 = some (lats, lons) ∧
      lats.length = lons.length ∧
      (∀ p ∈ lats.zip lons, squareContains p.1 p.2 = true) ∧
      ((5 : ℚ), (5 : ℚ)) ∈ lats.zip lons ∧
      ((20 : ℚ), (20 : ℚ)) ∉ lats.zip lons ∧
      sample_coords_within_polygon (fun _ _ => false) squareCoords 11 11 = some ([], []) := by
  refine ⟨linspace_0_10_11, ?_⟩
  have h : sample_coords_within_polygon squareContains squareCoords 11 11 =
      (let A := linspace 0 10 11
       let cands := A.flatMap (fun lo => A.map (fun la => (la, lo)))
       let kept := cands.filter (fun p => squareContains p.1 p.2)
       some (kept.map Prod.fst, kept.map Prod.snd)) := by
    rfl
  have h2 : sample_coords_within_polygon (fun _ _ => false) squareCoords 11 11 =
      (let A := linspace 0 10 11
       let cands := A.flatMap (fun lo => A.map (fun la => (la, lo)))
       let kept := cands.filter (fun _ => false)
       some (kept.map Prod.fst, kept.map Prod.snd)) := by
    rfl
  rw [linspace_0_10_11] at h h2
  refine ⟨_, _, h, ?_, ?_, ?_, ?_, ?_⟩
  · decide
  · decide
  · decide
  · decide
  · rw [h2]; decide

/-- Claim C9: the corrector has no special case for its two degenerate
inputs.  On the zero vector it reaches the division 0 / 0 when forming the
renormalization factor (NaN in the floating evaluation, undefined here),
and at latitude 90 it divides the east component by cos of a right angle,
which is zero; both runs are undefined rather than the zero or clamped
vectors the specification requires. -/
theorem vecCorrect_no_guard :
    vecCorrect 0 0 0 = none ∧ vecCorrect 90 1 1 = none := by
  constructor
  · unfold vecCorrect pdiv deg2rad
    simp [Real.cos_zero, Real.sqrt_zero]
  · have h90 : (90 : ℝ) * (Real.pi / 180) = Real.pi / 2 := by ring
    unfold vecCorrect pdiv deg2rad
    rw [h90]
    simp [Real.cos_pi_div_two]

/-- Claim C10: abbreviation resolution is case-asymmetric by construction.
The table is keyed by the uppercased catalog abbreviations and the header
token is looked up verbatim, so the lookup succeeds exactly when the token
is literally the uppercase form of a catalog abbreviation; a token that
matches only up to letter case is not a table key and its lookup fails. -/
theorem abbrev_lookup_verbatim (cat : List (String × Tag)) (t : String) :
    (dictGet? (abbrev2name cat) t).isSome = true
      ↔ t ∈ cat.map (fun e => pyUpper e.2.Abbrev) := by
  rw [dictGet?_isSome_iff, abbrev2name_keys]

/-- Witness for claim C10: the lowercase token of the Arabia abbreviation
is not resolvable while the uppercase form is. -/
theorem abbrev_lookup_verbatim_witness :
    ((dictGet? (abbrev2name catAR) "ar").isSome = true
      ↔ "ar" ∈ catAR.map (fun e => pyUpper e.2.Abbrev)) ∧
    ((dictGet? (abbrev2name catAR) "AR").isSome = true
      ↔ "AR" ∈ catAR.map (fun e => pyUpper e.2.Abbrev)) :=
  ⟨abbrev_lookup_verbatim catAR "ar", abbrev_lookup_verbatim catAR "AR"⟩

end PyPMM
